import Mathlib

/-!
Verification development for `awards_watch.py`, an awards-news digest
pipeline: ingestion of feed/listing sources, a lexical relevance scorer,
stable-identity deduplication against a persisted seen-set, threshold
filtering and ranking.

Modelling conventions:
* Python strings are Lean `String`s; the handful of `str` methods the
  script uses (`strip`, `lower`, `split`/`join`, `in`, `startswith`,
  `replace`) are implemented below over `List Char` so that every
  definition reduces in the kernel.
* Python float scores are modelled in exact fixed point: one score point
  is 100 units, so `1.0 ↦ 100`, `0.6 ↦ 60`, `0.8 ↦ 80`, the clamp bounds
  `0.0, 10.0 ↦ 0, 1000`, and the default threshold `3.5 ↦ 350`.  All
  quantities the script adds are multiples of `0.1`, far above the
  rounding error of double arithmetic, so this is the arithmetic the
  script performs.
* I/O is modelled by value passing: fetching a source yields either its
  extracted raw entries or the message of the raised exception; the two
  on-disk files (`state_seen.json`, `sources.json`) are `Option`s that
  are `none` when the file is absent.
-/

/-- One step of Python `str.strip`: drop leading whitespace characters. -/
def stripLeft (l : List Char) : List Char := l.dropWhile Char.isWhitespace

/-- Python `str.strip()`: remove leading and trailing whitespace. -/
def pyStrip (s : String) : String :=
  String.mk ((stripLeft s.data.reverse).reverse |> stripLeft)

/-- Python `str.lower()` (ASCII case folding, which covers every string the
script compares). -/
def pyLower (s : String) : String := String.mk (s.data.map Char.toLower)

/-- Whether `pre` is a prefix of `l` (character lists). -/
def charPrefix : List Char → List Char → Bool
  | [], _ => true
  | _ :: _, [] => false
  | a :: as, b :: bs => a = b && charPrefix as bs

/-- Whether `needle` occurs as a contiguous substring of `hay`. -/
def charSubstr (needle : List Char) : List Char → Bool
  | [] => charPrefix needle []
  | c :: rest => charPrefix needle (c :: rest) || charSubstr needle rest

/-- Python `needle in hay` on strings. -/
def inStr (needle hay : String) : Bool := charSubstr needle.data hay.data

/-- Python `s.startswith(pre)`. -/
def pyStartsWith (s pre : String) : Bool := charPrefix pre.data s.data

/-! ## SHA-256 (`hashlib.sha256`), on `Nat` with explicit mod-2³² arithmetic -/

/-- Truncation to a 32-bit word. -/
def w32 (x : ℕ) : ℕ := x % 4294967296

/-- Right rotation of a 32-bit word. -/
def rotr32 (n x : ℕ) : ℕ := w32 ((x >>> n) ||| (x <<< (32 - n)))

/-- SHA-256 `Ch(x,y,z)`; `¬x` is taken as xor with the 32-bit mask. -/
def shaCh (x y z : ℕ) : ℕ := (x &&& y) ^^^ ((x ^^^ 4294967295) &&& z)

/-- SHA-256 `Maj(x,y,z)`. -/
def shaMaj (x y z : ℕ) : ℕ := (x &&& y) ^^^ (x &&& z) ^^^ (y &&& z)

/-- SHA-256 Σ₀. -/
def bigSigma0 (x : ℕ) : ℕ := rotr32 2 x ^^^ rotr32 13 x ^^^ rotr32 22 x

/-- SHA-256 Σ₁. -/
def bigSigma1 (x : ℕ) : ℕ := rotr32 6 x ^^^ rotr32 11 x ^^^ rotr32 25 x

/-- SHA-256 σ₀. -/
def smallSigma0 (x : ℕ) : ℕ := rotr32 7 x ^^^ rotr32 18 x ^^^ (x >>> 3)

/-- SHA-256 σ₁. -/
def smallSigma1 (x : ℕ) : ℕ := rotr32 17 x ^^^ rotr32 19 x ^^^ (x >>> 10)

/-- The 64 SHA-256 round constants (FIPS 180-4 §4.2.2, written in
decimal). -/
def shaK : List ℕ :=
  [1116352408, 1899447441, 3049323471, 3921009573, 961987163,
   1508970993, 2453635748, 2870763221, 3624381080, 310598401,
   607225278, 1426881987, 1925078388, 2162078206, 2614888103,
   3248222580, 3835390401, 4022224774, 264347078, 604807628,
   770255983, 1249150122, 1555081692, 1996064986, 2554220882,
   2821834349, 2952996808, 3210313671, 3336571891, 3584528711,
   113926993, 338241895, 666307205, 773529912, 1294757372,
   1396182291, 1695183700, 1986661051, 2177026350, 2456956037,
   2730485921, 2820302411, 3259730800, 3345764771, 3516065817,
   3600352804, 4094571909, 275423344, 430227734, 506948616,
   659060556, 883997877, 958139571, 1322822218, 1537002063,
   1747873779, 1955562222, 2024104815, 2227730452, 2361852424,
   2428436474, 2756734187, 3204031479, 3329325298]

/-- The SHA-256 initial hash state (FIPS 180-4 §5.3.3, in decimal). -/
def shaH0 : List ℕ :=
  [1779033703, 3144134277, 1013904242, 2773480762,
   1359893119, 2600822924, 528734635, 1541459225]

/-- Big-endian bytes of a 64-bit message length. -/
def be64 (n : ℕ) : List ℕ :=
  [(n >>> 56) &&& 255, (n >>> 48) &&& 255, (n >>> 40) &&& 255, (n >>> 32) &&& 255,
   (n >>> 24) &&& 255, (n >>> 16) &&& 255, (n >>> 8) &&& 255, n &&& 255]

/-- SHA-256 padding: `0x80`, zeros to 56 mod 64, then the bit length. -/
def sha256Pad (msg : List ℕ) : List ℕ :=
  msg ++ [128] ++ List.replicate ((119 - msg.length % 64) % 64) 0 ++ be64 (8 * msg.length)

/-- Group bytes into big-endian 32-bit words. -/
def bytesToWords : List ℕ → List ℕ
  | a :: b :: c :: d :: rest => (((a * 256 + b) * 256 + c) * 256 + d) :: bytesToWords rest
  | _ => []

/-- Split a word list into 16-word blocks. -/
def chunk16 : List ℕ → List (List ℕ)
  | [] => []
  | w :: rest => (w :: rest).take 16 :: chunk16 ((w :: rest).drop 16)
termination_by l => l.length
decreasing_by simp; omega

/-- Extend a 16-word block by `fuel` further schedule words. -/
def extendSchedule (ws : List ℕ) : ℕ → List ℕ
  | 0 => ws
  | fuel + 1 =>
    extendSchedule
      (ws ++ [w32 (smallSigma1 (ws.getD (ws.length - 2) 0) + ws.getD (ws.length - 7) 0 +
                   smallSigma0 (ws.getD (ws.length - 15) 0) + ws.getD (ws.length - 16) 0)])
      fuel

/-- One SHA-256 compression round on the 8-word working state. -/
def shaRound (st : List ℕ) (kw : ℕ × ℕ) : List ℕ :=
  match st with
  | [a, b, c, d, e, f, g, h] =>
    let t1 := w32 (h + bigSigma1 e + shaCh e f g + kw.1 + kw.2)
    let t2 := w32 (bigSigma0 a + shaMaj a b c)
    [w32 (t1 + t2), a, b, c, w32 (d + t1), e, f, g]
  | other => other

/-- Process one 16-word block against the running hash state. -/
def shaBlock (h : List ℕ) (block : List ℕ) : List ℕ :=
  let st := (shaK.zip (extendSchedule block 48)).foldl shaRound h
  (h.zip st).map (fun p => w32 (p.1 + p.2))

/-- SHA-256 of a byte sequence, as eight 32-bit words. -/
def sha256Words (msg : List ℕ) : List ℕ :=
  (chunk16 (bytesToWords (sha256Pad msg))).foldl shaBlock shaH0

/-- Lower-case hex digit of a nibble. -/
def hexDigit (n : ℕ) : Char := if n < 10 then Char.ofNat (48 + n) else Char.ofNat (87 + n)

/-- Eight hex digits of a 32-bit word. -/
def hexWord (w : ℕ) : List Char :=
  [hexDigit ((w >>> 28) &&& 15), hexDigit ((w >>> 24) &&& 15), hexDigit ((w >>> 20) &&& 15),
   hexDigit ((w >>> 16) &&& 15), hexDigit ((w >>> 12) &&& 15), hexDigit ((w >>> 8) &&& 15),
   hexDigit ((w >>> 4) &&& 15), hexDigit (w &&& 15)]

/-- The function `hashlib.sha256(bytes).hexdigest()`. -/
def sha256Hex (msg : List ℕ) : String := String.mk ((sha256Words msg).map hexWord).flatten

/-- UTF-8 encoding of one character (Python `str.encode("utf-8")`). -/
def utf8Bytes (c : Char) : List ℕ :=
  let n := c.toNat
  if n < 128 then [n]
  else if n < 2048 then [192 + n / 64, 128 + n % 64]
  else if n < 65536 then [224 + n / 4096, 128 + (n / 64) % 64, 128 + n % 64]
  else [240 + n / 262144, 128 + (n / 4096) % 64, 128 + (n / 64) % 64, 128 + n % 64]

/-- UTF-8 bytes of a string. -/
def strBytes (s : String) : List ℕ := (s.data.map utf8Bytes).flatten

/-- The first 24 hex digits of the SHA-256 of a key string
(`hashlib.sha256(key.encode("utf-8")).hexdigest()[:24]`). -/
def hashKey (key : String) : String := String.mk ((sha256Hex (strBytes key)).data.take 24)

/-- The function `stable_id(url, title)`: hash of `url.strip() + "|" + title.strip()`
truncated to 24 hex digits.  (The script's `title or ""` guard against
`None` is the identity on actual strings.) -/
def stable_id (url : String) (title : String) : String :=
  hashKey (pyStrip url ++ "|" ++ pyStrip title)

/-! ## Relevance scorer (`score_item`) -/

/-- The award-relevance vocabulary, in the script's order. -/
def AWARD_TERMS : List String :=
  ["oscar", "oscars", "academy award", "academy awards",
   "bafta", "emmy", "golden globe", "golden globes",
   "sag", "dga", "pga", "wga", "guild",
   "nominee", "nominees", "nomination", "nominations",
   "shortlist", "longlist", "winner", "winners", "wins",
   "for your consideration", "fyc", "campaign", "contender", "awards season",
   "critics choice", "cannes", "venice", "berlin", "sundance", "telluride", "tiff"]

/-- The strong-signal vocabulary (`strong`, local to `score_item`). -/
def STRONG_TERMS : List String :=
  ["nominations", "nominees", "shortlist", "longlist", "winners", "wins",
   "eligibility", "rules", "deadline"]

/-- The negative vocabulary. -/
def NEGATIVE_HINTS : List String := ["trailer", "teaser", "box office", "first look", "poster"]

/-- First pass of `score_item`: fold the award vocabulary over the lowered
text, adding one point (100 units) and appending the matched term. -/
def awardPass (t : String) : ℤ × List String :=
  AWARD_TERMS.foldl (fun acc kw => if inStr kw t then (acc.1 + 100, acc.2 ++ [kw]) else acc)
    ((0 : ℤ), ([] : List String))

/-- Second pass: `+0.6` (60 units) per strong-signal match. -/
def strongPass (t : String) (sc : ℤ) : ℤ :=
  STRONG_TERMS.foldl (fun acc kw => if inStr kw t then acc + 60 else acc) sc

/-- Third pass: `-0.8` (80 units) per negative-hint match. -/
def negPass (t : String) (sc : ℤ) : ℤ :=
  NEGATIVE_HINTS.foldl (fun acc kw => if inStr kw t then acc - 80 else acc) sc

/-- Python `list(dict.fromkeys(l))`: deduplicate keeping the first
occurrence, preserving order; `sn` accumulates the keys already kept. -/
def dedupFirstAux (sn : List String) : List String → List String
  | [] => []
  | a :: l => if a ∈ sn then dedupFirstAux sn l else a :: dedupFirstAux (a :: sn) l

/-- Deduplication preserving first-seen order. -/
def dedupFirst (l : List String) : List String := dedupFirstAux [] l

/-- The function `score_item(text)`: clamp the three-pass score into `[0.0, 10.0]`
(fixed point: `[0, 1000]`), deduplicate the hit list and cap it at 10. -/
def score_item (text : String) : ℤ × List String :=
  let t := pyLower text
  let p1 := awardPass t
  (max 0 (min (negPass t (strongPass t p1.1)) 1000), (dedupFirst p1.2).take 10)

theorem score_item_fst (text : String) :
    (score_item text).1 =
      max 0 (min (negPass (pyLower text) (strongPass (pyLower text) (awardPass (pyLower text)).1))
        1000) := rfl

theorem score_item_snd (text : String) :
    (score_item text).2 = (dedupFirst (awardPass (pyLower text)).2).take 10 := rfl

theorem awardPass_hits_aux (t : String) :
    ∀ (l : List String) (sc : ℤ) (acc : List String),
      (l.foldl (fun acc kw => if inStr kw t then (acc.1 + 100, acc.2 ++ [kw]) else acc)
        (sc, acc)).2 = acc ++ l.filter (fun kw => inStr kw t) := by
  intro l
  induction l with
  | nil => intro sc acc; simp
  | cons kw rest ih =>
    intro sc acc
    by_cases h : inStr kw t
    · simp only [List.foldl_cons, if_pos h, List.filter_cons, h, ite_true, ih]
      simp
    · simp only [List.foldl_cons, if_neg h, List.filter_cons]
      simp [ih, h]

theorem dedupFirstAux_sublist : ∀ (l sn : List String), List.Sublist (dedupFirstAux sn l) l := by
  intro l
  induction l with
  | nil => intro sn; simp [dedupFirstAux]
  | cons a rest ih =>
    intro sn
    by_cases h : a ∈ sn
    · simpa [dedupFirstAux, h] using (ih sn).cons a
    · simpa [dedupFirstAux, h] using (ih (a :: sn)).cons₂ a

theorem awardPass_hits (t : String) :
    (awardPass t).2 = AWARD_TERMS.filter (fun kw => inStr kw t) := by
  have h := awardPass_hits_aux t AWARD_TERMS 0 []
  simpa [awardPass] using h

theorem mem_dedupFirstAux :
    ∀ (l sn : List String) (x : String), x ∈ dedupFirstAux sn l → x ∉ sn := by
  intro l
  induction l with
  | nil => intro sn x hx; simp [dedupFirstAux] at hx
  | cons a rest ih =>
    intro sn x hx
    by_cases h : a ∈ sn
    · exact ih sn x (by simpa [dedupFirstAux, h] using hx)
    · rw [dedupFirstAux, if_neg h] at hx
      rcases List.mem_cons.mp hx with rfl | hx'
      · exact h
      · intro hxsn
        exact ih (a :: sn) x hx' (List.mem_cons_of_mem a hxsn)

theorem dedupFirstAux_nodup : ∀ (l sn : List String), (dedupFirstAux sn l).Nodup := by
  intro l
  induction l with
  | nil => intro sn; simp [dedupFirstAux]
  | cons a rest ih =>
    intro sn
    by_cases h : a ∈ sn
    · simpa [dedupFirstAux, h] using ih sn
    · rw [dedupFirstAux, if_neg h]
      refine List.nodup_cons.mpr ⟨fun hmem => ?_, ih (a :: sn)⟩
      exact mem_dedupFirstAux rest (a :: sn) a hmem (List.mem_cons_self a sn)

/-- Claim C2: for every text input, `score_item` returns a score in
`[0.0, 10.0]` (fixed point: `[0, 1000]`) and a signal list with at most 10
entries, no duplicates, listed in first-match (vocabulary-scan) order,
i.e. a sublist of the award vocabulary. -/
theorem score_item_spec (text : String) :
    0 ≤ (score_item text).1 ∧ (score_item text).1 ≤ 1000 ∧
    (score_item text).2.length ≤ 10 ∧ (score_item text).2.Nodup ∧
    (score_item text).2.Sublist AWARD_TERMS := by
  refine ⟨?_, ?_, ?_, ?_, ?_⟩
  · rw [score_item_fst]; exact le_max_left 0 _
  · rw [score_item_fst]; exact max_le (by norm_num) (min_le_right _ _)
  · rw [score_item_snd]; exact List.length_take_le 10 _
  · rw [score_item_snd]
    exact (List.take_sublist 10 _).nodup (dedupFirstAux_nodup _ [])
  · rw [score_item_snd]
    refine ((List.take_sublist 10 _).trans (dedupFirstAux_sublist _ [])).trans ?_
    rw [awardPass_hits]
    exact List.filter_sublist _

/-- Claim C1, counterexample: `stable_id` is not injective on (url, title)
pairs that differ by more than trimming — moving characters across the
`"|"` separator gives equal hash keys, so two different pairs collide. -/
theorem stable_id_collision :
    stable_id "a|b" "c" = stable_id "a" "b|c" ∧
    ("a|b" : String) ≠ "a" ∧ pyStrip "a|b" ≠ pyStrip "a" := by
  refine ⟨congrArg hashKey ?_, by decide, by decide⟩
  decide

/-- Claim C1, amended: `stable_id` is a pure, deterministic function whose
output depends only on the trimmed url and trimmed title, so repeated calls
with identical (or identically-trimmed) inputs return identical output; but
distinct pairs need not give distinct output (see the counterexample). -/
theorem stable_id_deterministic (u₁ t₁ u₂ t₂ : String)
    (hu : pyStrip u₁ = pyStrip u₂) (ht : pyStrip t₁ = pyStrip t₂) :
    stable_id u₁ t₁ = stable_id u₂ t₂ := by
  unfold stable_id
  rw [hu, ht]

theorem stable_id_deterministic_witness :
    pyStrip " a" = pyStrip "a " ∧ stable_id " a" "b" = stable_id "a " "b" :=
  ⟨by decide, stable_id_deterministic " a" "b" "a " "b" (by decide) rfl⟩

/-! ## Publish timestamps (`pub_key`) and ranking -/

/-- Numeric value of a decimal digit character. -/
def dVal (c : Char) : ℕ := c.toNat - 48

/-- Two-digit decimal value. -/
def d2v (a b : Char) : ℤ := (dVal a * 10 + dVal b : ℕ)

/-- Four-digit decimal value. -/
def d4v (a b c d : Char) : ℤ := (((dVal a * 10 + dVal b) * 10 + dVal c) * 10 + dVal d : ℕ)

/-- Gregorian leap-year rule. -/
def isLeap (y : ℤ) : Bool := (y % 4 = 0 && y % 100 ≠ 0) || y % 400 = 0

/-- Days in a month, as validated by `datetime.fromisoformat`. -/
def daysInMonth (y : ℤ) (m : ℤ) : ℤ :=
  if m = 2 then (if isLeap y then 29 else 28)
  else if m = 4 ∨ m = 6 ∨ m = 9 ∨ m = 11 then 30 else 31

/-- Days since 1970-01-01 of a civil date (Hinnant's `days_from_civil`;
every division below has a non-negative dividend for the years a four-digit
timestamp can carry, so integer-division convention does not matter). -/
def daysFromCivil (y m d : ℤ) : ℤ :=
  let yy := if m ≤ 2 then y - 1 else y
  let era := (if 0 ≤ yy then yy else yy - 399) / 400
  let yoe := yy - era * 400
  let doy := (153 * (if m ≤ 2 then m + 9 else m - 3) + 2) / 5 + d - 1
  let doe := yoe * 365 + yoe / 4 - yoe / 100 + doy
  era * 146097 + doe - 719468

/-- The parser `datetime.fromisoformat` on the timezone-aware second-precision format
`YYYY-MM-DDTHH:MM:SS±HH:MM` — the only format this pipeline ever writes
(`parse_rss` emits `isoformat()` of a UTC whole-second time, listings emit
`""`).  The result is the instant as seconds since the epoch; any other
string is a parse failure, as `fromisoformat` raises `ValueError` on
malformed input. -/
def parseIso (s : String) : Option ℤ :=
  match s.data with
  | [y1, y2, y3, y4, s1, mo1, mo2, s2, d1, d2, s3, h1, h2, s4, mi1, mi2, s5, se1, se2,
     sg, oh1, oh2, s6, om1, om2] =>
    if [y1, y2, y3, y4, mo1, mo2, d1, d2, h1, h2, mi1, mi2, se1, se2, oh1, oh2,
            om1, om2].all Char.isDigit ∧
        s1 = '-' ∧ s2 = '-' ∧ s3 = 'T' ∧ s4 = ':' ∧ s5 = ':' ∧ s6 = ':' ∧
        (sg = '+' ∨ sg = '-') ∧
        1 ≤ d2v mo1 mo2 ∧ d2v mo1 mo2 ≤ 12 ∧
        1 ≤ d2v d1 d2 ∧ d2v d1 d2 ≤ daysInMonth (d4v y1 y2 y3 y4) (d2v mo1 mo2) ∧
        d2v h1 h2 ≤ 23 ∧ d2v mi1 mi2 ≤ 59 ∧ d2v se1 se2 ≤ 59 ∧
        d2v oh1 oh2 ≤ 23 ∧ d2v om1 om2 ≤ 59 then
      some (daysFromCivil (d4v y1 y2 y3 y4) (d2v mo1 mo2) (d2v d1 d2) * 86400 +
        d2v h1 h2 * 3600 + d2v mi1 mi2 * 60 + d2v se1 se2 -
        (if sg = '+' then 1 else -1) * (d2v oh1 oh2 * 3600 + d2v om1 om2 * 60))
    else none
  | _ => none

/-- Python `p.replace("Z", "+00:00")` (the pattern is a single character). -/
def replaceZ (s : String) : String :=
  String.mk ((s.data.map (fun c => if c = 'Z' then ['+', '0', '0', ':', '0', '0'] else [c])).flatten)

/-- The sort key for the publish field: the parsed timestamp, or the epoch
(`datetime(1970,1,1)`, instant `0`) when parsing fails. -/
def pub_key (p : String) : ℤ := (parseIso (replaceZ p)).getD 0

/-! ## Pipeline data model -/

/-- A raw entry as produced by `parse_rss`/`parse_listing`: the dict
`{"title": …, "url": …, "summary": …, "published": …}`. -/
structure RawItem where
  title : String
  url : String
  summary : String
  published : String
deriving DecidableEq

/-- An entry of `all_items`: the raw fields plus id, score, signal hits and
the source metadata. -/
structure OutItem where
  title : String
  url : String
  summary : String
  published : String
  id : String
  score : ℤ
  hits : List String
  source : String
  type : String
  affects_nom : Bool
  affects_win : Bool
deriving DecidableEq

/-- A configured source, with the outcome of its fetch-and-extract step.
Transport fetching is an external capability (spec §1), so the result of
`parse_rss(s["rss"])` / `parse_listing(s["url"])` — either the extracted
raw entries or the message of the exception the attempt raised — is part
of the run's input. -/
structure Source where
  name : String
  type : String
  affects_nom : Bool
  affects_win : Bool
  fetched : Except String (List RawItem)

/-- The text handed to the scorer: `f"{it['title']} {it.get('summary','')}"`. -/
def itemText (it : RawItem) : String := it.title ++ " " ++ it.summary

/-- The stable id of an item: `stable_id(it["url"], it["title"])`. -/
def itemId (it : RawItem) : String := stable_id it.url it.title

/-- The `all_items` record built for an item that passes both filters. -/
def emit (s : Source) (it : RawItem) : OutItem :=
  { title := it.title, url := it.url, summary := it.summary, published := it.published,
    id := itemId it,
    score := (score_item (itemText it)).1, hits := (score_item (itemText it)).2,
    source := s.name, type := s.type,
    affects_nom := s.affects_nom, affects_win := s.affects_win }

/-- The inner `for it in items:` loop of `main`: skip items whose stable id
is already seen, score the rest, skip those under the threshold, append the
survivors, and (in mark-seen mode) add their ids to the seen set. -/
def processItems (minScore : ℤ) (markSeen : Bool) (s : Source) :
    List RawItem → Finset String → List OutItem × Finset String
  | [], seen => ([], seen)
  | it :: rest, seen =>
    if itemId it ∈ seen then
      processItems minScore markSeen s rest seen
    else if (score_item (itemText it)).1 < minScore then
      processItems minScore markSeen s rest seen
    else
      let r := processItems minScore markSeen s rest
        (if markSeen then insert (itemId it) seen else seen)
      (emit s it :: r.1, r.2)

/-- The outer `for s in sources:` loop of `main`: a failed fetch is recorded
as `f"{s['name']}: {e}"` and processing continues with the next source;
items and errors accumulate in source order and the seen set threads
through. -/
def runSources (minScore : ℤ) (markSeen : Bool) :
    List Source → Finset String → List OutItem × List String × Finset String
  | [], seen => ([], [], seen)
  | s :: rest, seen =>
    match s.fetched with
    | Except.error e =>
      let r := runSources minScore markSeen rest seen
      (r.1, (s.name ++ ": " ++ e) :: r.2.1, r.2.2)
    | Except.ok its =>
      let p := processItems minScore markSeen s its seen
      let r := runSources minScore markSeen rest p.2
      (p.1 ++ r.1, r.2.1, r.2.2)

/-- The ranking comparator: `a` may precede `b` when `a` has the larger
`(score, pub_key(published))` pair — the stable descending sort
`all_items.sort(key=…, reverse=True)`. -/
def rankLe (a b : OutItem) : Prop :=
  b.score < a.score ∨ (b.score = a.score ∧ pub_key b.published ≤ pub_key a.published)

instance : DecidableRel rankLe := fun a b => by unfold rankLe; infer_instance

instance : IsTotal OutItem rankLe :=
  ⟨by intro a b; unfold rankLe; omega⟩

instance : IsTrans OutItem rankLe :=
  ⟨by intro a b c; unfold rankLe; omega⟩

/-- The final sort of `all_items`: Python's stable descending sort equals
stable insertion sort with respect to `rankLe`. -/
def sortItems (l : List OutItem) : List OutItem := List.insertionSort rankLe l

/-- The result of one pipeline run: the ranked item list handed to the
renderer, the per-source failure summary, and the seen set that
`save_seen` persists. -/
structure RunResult where
  items : List OutItem
  errors : List String
  seen : Finset String
deriving DecidableEq

/-- The body of `main` after source loading: run every source, then sort. -/
def mainModel (sources : List Source) (seen : Finset String) (minScore : ℤ)
    (markSeen : Bool) : RunResult :=
  let r := runSources minScore markSeen sources seen
  ⟨sortItems r.1, r.2.1, r.2.2⟩

/-- The function `load_sources` followed by `main`'s pipeline: `sources.json` is an
`Option` that is `none` when the file is missing, in which case `open`
raises `FileNotFoundError`; JSON decoding of the present file is abstracted
to the decoded source list. -/
def loadAndRun (sourcesFile : Option (List Source)) (seen : Finset String)
    (minScore : ℤ) (markSeen : Bool) : Except String RunResult :=
  match sourcesFile with
  | none => Except.error "FileNotFoundError: sources.json"
  | some sources => Except.ok (mainModel sources seen minScore markSeen)

/-! ## Seen-set persistence (`load_seen`) -/

/-- JSON whitespace. -/
def jsonWS (c : Char) : Bool := c = ' ' || c = '\t' || c = '\n' || c = '\r'

/-- Read one JSON string body (after the opening quote); escape sequences
do not occur in the hex ids `save_seen` writes and are out of scope. -/
def readJStringAux : List Char → List Char → Option (String × List Char)
  | [], _ => none
  | '"' :: rest, acc => some (String.mk acc.reverse, rest)
  | '\\' :: _, _ => none
  | c :: rest, acc => readJStringAux rest (c :: acc)

/-- Read one JSON string literal. -/
def readJString : List Char → Option (String × List Char)
  | '"' :: rest => readJStringAux rest []
  | _ => none

/-- Read comma-separated JSON strings up to the closing bracket. -/
def readJItems : ℕ → List Char → Option (List String × List Char)
  | 0, _ => none
  | fuel + 1, l =>
    match readJString l with
    | none => none
    | some (x, rest) =>
      match rest.dropWhile jsonWS with
      | ',' :: tail =>
        match readJItems fuel (tail.dropWhile jsonWS) with
        | some (xs, tl) => some (x :: xs, tl)
        | none => none
      | ']' :: tail => some ([x], tail)
      | _ => none

/-- The decoder `json.load`, restricted to the JSON arrays of plain strings that
`save_seen` writes; any other document is a decode failure. -/
def readJsonStrings (s : String) : Option (List String) :=
  match s.data.dropWhile jsonWS with
  | '[' :: rest =>
    match rest.dropWhile jsonWS with
    | ']' :: tail => if tail.dropWhile jsonWS = [] then some [] else none
    | other =>
      match readJItems s.length other with
      | some (xs, tail) => if tail.dropWhile jsonWS = [] then some xs else none
      | none => none
  | _ => none

/-- The function `load_seen()`: a missing `state_seen.json` yields the empty set; a
present file is decoded, and a decode failure propagates as the raised
`json.JSONDecodeError` (there is no `try` around it). -/
def load_seen (stateFile : Option String) : Except String (Finset String) :=
  match stateFile with
  | none => Except.ok ∅
  | some content =>
    match readJsonStrings content with
    | some l => Except.ok l.toFinset
    | none => Except.error "json.decoder.JSONDecodeError"

/-! ## Claims C7, C8, C9 -/

/-- Claim C7: a fetch or parse failure for one source is caught at the
adapter boundary, recorded as `sourceName: errorDetail`, and does not abort
the remaining sources — with three sources whose second fails, the run's
items and final seen set are those of sources one and three alone, plus
exactly one recorded failure for source two. -/
theorem source_failure_isolated (minScore : ℤ) (markSeen : Bool) (s1 s2 s3 : Source)
    (its1 its3 : List RawItem) (e : String) (seen : Finset String)
    (h1 : s1.fetched = Except.ok its1) (h2 : s2.fetched = Except.error e)
    (h3 : s3.fetched = Except.ok its3) :
    (runSources minScore markSeen [s1, s2, s3] seen).1 =
      (runSources minScore markSeen [s1, s3] seen).1 ∧
    (runSources minScore markSeen [s1, s2, s3] seen).2.1 = [s2.name ++ ": " ++ e] ∧
    (runSources minScore markSeen [s1, s2, s3] seen).2.2 =
      (runSources minScore markSeen [s1, s3] seen).2.2 := by
  refine ⟨?_, ?_, ?_⟩ <;> simp [runSources, h1, h2, h3]

/-- A source whose fetch succeeds with one high-scoring entry. -/
def witSrcOne : Source :=
  ⟨"one", "rss", true, false,
   Except.ok [⟨"Oscar nominations shortlist revealed", "https://one.example/a", "", ""⟩]⟩

/-- A source whose fetch raises. -/
def witSrcTwo : Source := ⟨"two", "rss", true, false, Except.error "boom"⟩

/-- A source whose fetch succeeds with no entries. -/
def witSrcThree : Source := ⟨"three", "listing", false, true, Except.ok []⟩

theorem source_failure_isolated_witness :
    (runSources 350 false [witSrcOne, witSrcTwo, witSrcThree] ∅).2.1 = ["two: boom"] :=
  (source_failure_isolated 350 false witSrcOne witSrcTwo witSrcThree _ _ "boom" ∅
    rfl rfl rfl).2.1

/-- Claim C8, counterexample: a present-but-undecodable `state_seen.json`
does not degrade to the empty set — `load_seen` propagates the decode
error, aborting the run. -/
theorem load_seen_corrupt_raises :
    load_seen (some "oops") = Except.error "json.decoder.JSONDecodeError" ∧
    (load_seen (some "oops")).isOk = false :=
  ⟨rfl, rfl⟩

/-- Claim C8, amended: a missing durable record yields the empty set (not
an error), but any other load failure raises the decode error instead of
degrading to the empty set. -/
theorem load_seen_missing_empty :
    load_seen none = Except.ok (∅ : Finset String) ∧
    load_seen (some "oops") = Except.error "json.decoder.JSONDecodeError" :=
  ⟨rfl, rfl⟩

/-- Claim C9, counterexample: an empty source sequence is not rejected —
the run completes normally with an empty digest and no errors, rather than
failing fast with a configuration error. -/
theorem empty_sources_not_rejected :
    loadAndRun (some []) (∅ : Finset String) 350 false =
      Except.ok ⟨[], [], (∅ : Finset String)⟩ := rfl

/-- Claim C9, amended: only a missing `sources.json` aborts the run before
any fetching (the `open` call raises); an empty source sequence is not
rejected — it is accepted and produces an empty successful run.  There is
no up-front validation of the sequence at all. -/
theorem sources_load_behavior :
    (∀ (seen : Finset String) (minScore : ℤ) (markSeen : Bool),
        loadAndRun none seen minScore markSeen =
          Except.error "FileNotFoundError: sources.json") ∧
    (∀ (seen : Finset String) (minScore : ℤ) (markSeen : Bool),
        loadAndRun (some []) seen minScore markSeen = Except.ok ⟨[], [], seen⟩) :=
  ⟨fun _ _ _ => rfl, fun _ _ _ => rfl⟩

/-! ## Seen-set dynamics: claims C5 and C10 -/

theorem processItems_seen_mono (minScore : ℤ) (markSeen : Bool) (s : Source) :
    ∀ (its : List RawItem) (seen : Finset String),
      seen ⊆ (processItems minScore markSeen s its seen).2 := by
  intro its
  induction its with
  | nil => intro seen; simp [processItems]
  | cons it rest ih =>
    intro seen
    by_cases h1 : itemId it ∈ seen
    · simpa [processItems, h1] using ih seen
    · by_cases h2 : (score_item (itemText it)).1 < minScore
      · simpa [processItems, h1, h2] using ih seen
      · have hsub : seen ⊆ (if markSeen then insert (itemId it) seen else seen) := by
          cases markSeen <;> simp [Finset.subset_insert]
        simp only [processItems, if_neg h1, if_neg h2]
        exact hsub.trans (ih _)

theorem processItems_rerun (minScore : ℤ) (s : Source) :
    ∀ (its : List RawItem) (seen seenB : Finset String),
      (processItems minScore true s its seen).2 ⊆ seenB →
      processItems minScore true s its seenB = ([], seenB) := by
  intro its
  induction its with
  | nil => intro seen seenB hsub; simp [processItems]
  | cons it rest ih =>
    intro seen seenB hsub
    by_cases h1 : itemId it ∈ seen
    · rw [processItems, if_pos h1] at hsub
      have hmem : itemId it ∈ seenB :=
        hsub (processItems_seen_mono minScore true s rest seen h1)
      rw [processItems, if_pos hmem]
      exact ih seen seenB hsub
    · by_cases h2 : (score_item (itemText it)).1 < minScore
      · rw [processItems, if_neg h1, if_pos h2] at hsub
        by_cases hm : itemId it ∈ seenB
        · rw [processItems, if_pos hm]
          exact ih seen seenB hsub
        · rw [processItems, if_neg hm, if_pos h2]
          exact ih seen seenB hsub
      · rw [processItems, if_neg h1, if_neg h2] at hsub
        have hsub' : (processItems minScore true s rest (insert (itemId it) seen)).2 ⊆ seenB := by
          simpa using hsub
        have hmem : itemId it ∈ seenB :=
          hsub' (processItems_seen_mono minScore true s rest _ (Finset.mem_insert_self _ _))
        rw [processItems, if_pos hmem]
        exact ih _ seenB hsub'

theorem runSources_seen_mono (minScore : ℤ) (markSeen : Bool) :
    ∀ (srcs : List Source) (seen : Finset String),
      seen ⊆ (runSources minScore markSeen srcs seen).2.2 := by
  intro srcs
  induction srcs with
  | nil => intro seen; simp [runSources]
  | cons s rest ih =>
    intro seen
    cases hf : s.fetched with
    | error e => simpa [runSources, hf] using ih seen
    | ok its =>
      simp only [runSources, hf]
      exact (processItems_seen_mono minScore markSeen s its seen).trans (ih _)

theorem runSources_rerun (minScore : ℤ) :
    ∀ (srcs : List Source) (seen seenB : Finset String),
      (runSources minScore true srcs seen).2.2 ⊆ seenB →
      (runSources minScore true srcs seenB).1 = [] ∧
      (runSources minScore true srcs seenB).2.2 = seenB := by
  intro srcs
  induction srcs with
  | nil => intro seen seenB hsub; simp [runSources]
  | cons s rest ih =>
    intro seen seenB hsub
    cases hf : s.fetched with
    | error e =>
      rw [runSources, hf] at hsub
      have h := ih seen seenB hsub
      simp only [runSources, hf]
      exact h
    | ok its =>
      rw [runSources, hf] at hsub
      have hp : (processItems minScore true s its seen).2 ⊆ seenB :=
        (runSources_seen_mono minScore true rest _).trans hsub
      have hskip := processItems_rerun minScore s its seen seenB hp
      have hrest := ih (processItems minScore true s its seen).2 seenB hsub
      simp only [runSources, hf, hskip]
      simpa using hrest

/-- Claim C5: running the pipeline twice in mark-seen mode over identical
source content yields zero items on the second run — everything surfaced in
the first run is filtered by the persisted seen set, and everything the
first run excluded is excluded again by the same deterministic checks. -/
theorem second_run_empty (minScore : ℤ) (sources : List Source) (seen : Finset String) :
    (mainModel sources (mainModel sources seen minScore true).seen minScore true).items = [] := by
  have h := runSources_rerun minScore sources seen
    (runSources minScore true sources seen).2.2 (Finset.Subset.refl _)
  show sortItems (runSources minScore true sources
      (runSources minScore true sources seen).2.2).1 = []
  rw [h.1]
  rfl

theorem processItems_marks_output (minScore : ℤ) (s : Source) :
    ∀ (its : List RawItem) (seen : Finset String),
      (processItems minScore true s its seen).2 =
        seen ∪ ((processItems minScore true s its seen).1.map OutItem.id).toFinset := by
  intro its
  induction its with
  | nil => intro seen; simp [processItems]
  | cons it rest ih =>
    intro seen
    by_cases h1 : itemId it ∈ seen
    · simpa [processItems, h1] using ih seen
    · by_cases h2 : (score_item (itemText it)).1 < minScore
      · simpa [processItems, h1, h2] using ih seen
      · simp only [processItems, if_neg h1, if_neg h2, eq_self_iff_true, if_true]
        rw [ih (insert (itemId it) seen), Finset.insert_union]
        simp [emit, Finset.union_insert]

theorem runSources_marks_output (minScore : ℤ) :
    ∀ (srcs : List Source) (seen : Finset String),
      (runSources minScore true srcs seen).2.2 =
        seen ∪ ((runSources minScore true srcs seen).1.map OutItem.id).toFinset := by
  intro srcs
  induction srcs with
  | nil => intro seen; simp [runSources]
  | cons s rest ih =>
    intro seen
    cases hf : s.fetched with
    | error e => simpa [runSources, hf] using ih seen
    | ok its =>
      simp only [runSources, hf]
      rw [ih, processItems_marks_output]
      rw [Finset.union_assoc]
      congr 1
      simp [List.toFinset_append]

/-- Claim C10: in mark-seen mode a stable id is added to the seen set
exactly for the items included in the run's output — the final seen set is
the initial one united with the ids of the emitted items, so items skipped
as already seen or as under-threshold contribute nothing. -/
theorem mark_seen_adds_only_output (minScore : ℤ) (sources : List Source)
    (seen : Finset String) :
    (mainModel sources seen minScore true).seen =
      seen ∪ ((mainModel sources seen minScore true).items.map OutItem.id).toFinset := by
  show (runSources minScore true sources seen).2.2 =
    seen ∪ ((sortItems (runSources minScore true sources seen).1).map OutItem.id).toFinset
  rw [runSources_marks_output]
  congr 1
  exact (List.toFinset_eq_of_perm _ _
    ((List.perm_insertionSort rankLe _).map OutItem.id)).symm

/-! ## Claim C3: the threshold filter -/

theorem processItems_out_scores (minScore : ℤ) (markSeen : Bool) (s : Source) :
    ∀ (its : List RawItem) (seen : Finset String) (o : OutItem),
      o ∈ (processItems minScore markSeen s its seen).1 → minScore ≤ o.score := by
  intro its
  induction its with
  | nil => intro seen o ho; simp [processItems] at ho
  | cons it rest ih =>
    intro seen o ho
    by_cases h1 : itemId it ∈ seen
    · exact ih seen o (by simpa [processItems, h1] using ho)
    · by_cases h2 : (score_item (itemText it)).1 < minScore
      · exact ih seen o (by simpa [processItems, h1, h2] using ho)
      · simp only [processItems, if_neg h1, if_neg h2] at ho
        rcases List.mem_cons.mp ho with rfl | ho'
        · exact le_of_not_lt h2
        · exact ih _ o ho'

theorem processItems_mem_of (minScore : ℤ) (markSeen : Bool) (s : Source) :
    ∀ (its : List RawItem) (seen : Finset String) (it : RawItem),
      it ∈ its → itemId it ∉ seen → (its.map itemId).Nodup →
      minScore ≤ (score_item (itemText it)).1 →
      emit s it ∈ (processItems minScore markSeen s its seen).1 := by
  intro its
  induction its with
  | nil => intro seen it hmem; simp at hmem
  | cons hd rest ih =>
    intro seen it hmem hunseen hnodup hscore
    rcases List.mem_cons.mp hmem with rfl | hmem'
    · rw [processItems, if_neg hunseen, if_neg (not_lt.mpr hscore)]
      exact List.mem_cons_self _ _
    · have hnodup' : (rest.map itemId).Nodup := (List.nodup_cons.mp (by simpa using hnodup)).2
      by_cases h1 : itemId hd ∈ seen
      · rw [processItems, if_pos h1]
        exact ih seen it hmem' hunseen hnodup' hscore
      · by_cases h2 : (score_item (itemText hd)).1 < minScore
        · rw [processItems, if_neg h1, if_pos h2]
          exact ih seen it hmem' hunseen hnodup' hscore
        · rw [processItems, if_neg h1, if_neg h2]
          have hne : itemId it ≠ itemId hd := by
            have hhd : itemId hd ∉ rest.map itemId :=
              (List.nodup_cons.mp (by simpa using hnodup)).1
            intro he
            exact hhd (he ▸ List.mem_map_of_mem itemId hmem')
          have hunseen' : itemId it ∉ (if markSeen then insert (itemId hd) seen else seen) := by
            cases markSeen
            · simpa using hunseen
            · simp only [if_true]
              rw [Finset.mem_insert]
              push_neg
              exact ⟨hne, hunseen⟩
          exact List.mem_cons_of_mem _ (ih _ it hmem' hunseen' hnodup' hscore)

/-- Claim C3: a scored, unseen item appears in the final output exactly
when its score reaches the minimum-score threshold (`score < minScore` is
the only exclusion applied to it); the boundary is inclusive, so with
threshold 3.5 a score of exactly 3.5 passes and 3.49 does not. -/
theorem threshold_filter (s : Source) (its : List RawItem) (seen : Finset String)
    (minScore : ℤ) (markSeen : Bool) (it : RawItem)
    (hf : s.fetched = Except.ok its) (hmem : it ∈ its)
    (hunseen : itemId it ∉ seen) (hnodup : (its.map itemId).Nodup) :
    emit s it ∈ (mainModel [s] seen minScore markSeen).items ↔
      minScore ≤ (score_item (itemText it)).1 := by
  have hrun : (runSources minScore markSeen [s] seen).1 =
      (processItems minScore markSeen s its seen).1 := by
    simp [runSources, hf]
  have hitems : (mainModel [s] seen minScore markSeen).items =
      sortItems (runSources minScore markSeen [s] seen).1 := rfl
  constructor
  · intro h
    rw [hitems] at h
    have h' : emit s it ∈ (runSources minScore markSeen [s] seen).1 :=
      (List.perm_insertionSort rankLe _).mem_iff.mp h
    rw [hrun] at h'
    exact processItems_out_scores minScore markSeen s its seen _ h'
  · intro hscore
    rw [hitems]
    refine (List.perm_insertionSort rankLe _).mem_iff.mpr ?_
    rw [hrun]
    exact processItems_mem_of minScore markSeen s its seen it hmem hunseen hnodup hscore

/-- The concrete high-scoring feed entry used to witness the threshold
filter. -/
def witC3item : RawItem :=
  ⟨"Oscar nominations shortlist revealed", "https://news.example/story", "",
   "2024-03-05T17:30:09+00:00"⟩

/-- The concrete source carrying `witC3item`. -/
def witC3src : Source := ⟨"one", "rss", true, false, Except.ok [witC3item]⟩

theorem threshold_filter_witness :
    emit witC3src witC3item ∈ (mainModel [witC3src] ∅ 350 false).items :=
  (threshold_filter witC3src [witC3item] ∅ 350 false witC3item rfl (by decide)
    (by simp) (by simp)).mpr (by decide)

/-! ## Claim C4: the ranking order -/

/-- A score-5.0 item with a valid timestamp one day before the epoch. -/
def preEpochItem : OutItem :=
  ⟨"Valid pre-epoch", "https://x.example/a", "", "1969-12-31T00:00:00+00:00",
   "ida", 500, [], "src", "rss", true, false⟩

/-- A score-5.0 item whose timestamp does not parse. -/
def badStampItem : OutItem :=
  ⟨"Unparseable", "https://x.example/b", "", "not a timestamp",
   "idb", 500, [], "src", "rss", true, false⟩

/-- Claim C4, counterexample: both items score 5.0, the first carries a
valid (pre-epoch) timestamp and the second an unparseable one, yet the sort
places the unparseable item first — a valid timestamp before the epoch
compares below the epoch value that unparseable timestamps receive. -/
theorem ranking_tiebreak_counterexample :
    preEpochItem.score = badStampItem.score ∧
    (parseIso (replaceZ preEpochItem.published)).isSome = true ∧
    parseIso (replaceZ badStampItem.published) = none ∧
    sortItems [preEpochItem, badStampItem] = [badStampItem, preEpochItem] := by
  refine ⟨rfl, by decide, by decide, by decide⟩

/-- Claim C4, amended: the output is sorted by descending score with ties
broken by descending parsed timestamp; a missing or unparseable timestamp
keeps its item but sorts with the epoch key `0`; and at equal scores an
item whose valid timestamp is later than the epoch precedes any item with
an unparseable timestamp (a valid pre-epoch timestamp sorts after it — see
the counterexample). -/
theorem ranking_policy :
    (∀ l : List OutItem, List.Sorted rankLe (sortItems l)) ∧
    (∀ p : String, parseIso (replaceZ p) = none → pub_key p = 0) ∧
    (∀ (l : List OutItem) (a b : OutItem) (i j : ℕ)
        (hi : i < (sortItems l).length) (hj : j < (sortItems l).length),
        (sortItems l).get ⟨i, hi⟩ = a → (sortItems l).get ⟨j, hj⟩ = b →
        a.score = b.score → 0 < pub_key a.published →
        parseIso (replaceZ b.published) = none → i < j) := by
  refine ⟨fun l => List.sorted_insertionSort rankLe l, ?_, ?_⟩
  · intro p hp
    unfold pub_key
    rw [hp]
    rfl
  · intro l a b i j hi hj hga hgb hsc hpa hpb
    have hpb0 : pub_key b.published = 0 := by
      unfold pub_key
      rw [hpb]
      rfl
    have hsorted : List.Sorted rankLe (sortItems l) := List.sorted_insertionSort rankLe l
    by_contra hij
    push_neg at hij
    rcases eq_or_lt_of_le hij with heq | hlt
    · have hfin : (⟨j, hj⟩ : Fin (sortItems l).length) = ⟨i, hi⟩ := Fin.ext heq
      have hab : b = a := by rw [← hga, ← hgb, hfin]
      rw [hab] at hpb0
      omega
    · have hrel := hsorted.rel_get_of_lt (a := ⟨j, hj⟩) (b := ⟨i, hi⟩) hlt
      rw [hga, hgb] at hrel
      unfold rankLe at hrel
      omega

/-- A score-5.0 item stamped well after the epoch. -/
def postEpochItem : OutItem :=
  ⟨"Valid post-epoch", "https://x.example/c", "", "2024-03-05T17:30:09+00:00",
   "idc", 500, [], "src", "rss", true, false⟩

theorem ranking_policy_witness :
    pub_key "not a timestamp" = 0 ∧ (0 : ℕ) < 1 :=
  ⟨ranking_policy.2.1 "not a timestamp" (by decide),
   ranking_policy.2.2 [badStampItem, postEpochItem] postEpochItem badStampItem 0 1
     (by decide) (by decide) (by decide) (by decide) rfl (by decide) (by decide)⟩

/-! ## Claim C6: the listing adapter (`parse_listing`) -/

/-- One `a[href]` element of the fetched listing page: its `href`
attribute, its rendered text, and the text of the nearby paragraph used as
a blurb (empty when there is none). -/
structure Anchor where
  href : String
  text : String
  blurb : String
deriving DecidableEq

/-- Python `" ".join(s.split())`: collapse whitespace runs. -/
def collapseWS (s : String) : String :=
  String.mk (List.intercalate [' ']
    ((s.data.splitOnP Char.isWhitespace).filter (fun w => !w.isEmpty)))

/-- End of the authority component of a URL. -/
def netlocEnd (c : Char) : Bool := c = '/' || c = '?' || c = '#'

/-- The characters of `urlparse(u).netloc`: what follows the first `"://"`
up to the end of the authority (empty when there is no `"://"`). -/
def netlocAux : List Char → List Char
  | [] => []
  | ':' :: '/' :: '/' :: rest => rest.takeWhile (fun c => !netlocEnd c)
  | _ :: t => netlocAux t

/-- The value `urlparse(u).netloc`. -/
def netlocOf (u : String) : String := String.mk (netlocAux u.data)

/-- The scheme-and-authority prefix of a URL. -/
def schemeHostAux : List Char → List Char
  | [] => []
  | ':' :: '/' :: '/' :: rest => ':' :: '/' :: '/' :: rest.takeWhile (fun c => !netlocEnd c)
  | c :: t => c :: schemeHostAux t

/-- The base URL up to and including its last `/`. -/
def baseDirAux (l : List Char) : List Char := (l.reverse.dropWhile (fun c => c ≠ '/')).reverse

/-- The join `urllib.parse.urljoin(base, href)` for the href shapes a listing page
carries: protocol-relative, root-relative and document-relative references.
The claims only constrain the checks applied to the joined URL afterwards,
not the join itself. -/
def urljoin (base href : String) : String :=
  if pyStartsWith href "//" then
    String.mk (base.data.takeWhile (fun c => c ≠ ':')) ++ ":" ++ href
  else if pyStartsWith href "/" then
    String.mk (schemeHostAux base.data) ++ href
  else
    String.mk (baseDirAux base.data) ++ href

/-- The denylist `bad` of non-article URL substrings. -/
def BAD_SUBSTRINGS : List String :=
  ["privacy", "terms", "account", "login", "subscribe", "newsletter", "contact", "about"]

/-- The per-anchor body of `parse_listing`'s loop: collapse the anchor
text, drop short titles, resolve the href, and keep the link only when it
is absolute, on the listing's own host and free of denylist substrings. -/
def normalizeAnchor (page_url : String) (a : Anchor) : Option RawItem :=
  let href := pyStrip a.href
  let title := collapseWS a.text
  if title.length < 18 then none
  else
    let full := if pyStartsWith href "http" then href else urljoin page_url href
    if ¬ pyStartsWith full "http" then none
    else if netlocOf full ≠ netlocOf page_url then none
    else if BAD_SUBSTRINGS.any (fun b => inStr b (pyLower full)) then none
    else some ⟨title, full, collapseWS a.blurb, ""⟩

/-- The `# dedupe by url` pass: first occurrence of each URL wins. -/
def dedupByUrlAux (sn : List String) : List RawItem → List RawItem
  | [] => []
  | it :: rest =>
    if it.url ∈ sn then dedupByUrlAux sn rest
    else it :: dedupByUrlAux (it.url :: sn) rest

/-- The function `parse_listing(page_url)` given the anchors extracted from the fetched
page: normalize each anchor, deduplicate by URL, cap at `limit` (the
script's default is 50). -/
def parse_listing (page_url : String) (anchors : List Anchor) (limit : ℕ) : List RawItem :=
  (dedupByUrlAux [] (anchors.filterMap (normalizeAnchor page_url))).take limit

theorem dedupByUrlAux_sublist :
    ∀ (l : List RawItem) (sn : List String), List.Sublist (dedupByUrlAux sn l) l := by
  intro l
  induction l with
  | nil => intro sn; simp [dedupByUrlAux]
  | cons it rest ih =>
    intro sn
    by_cases h : it.url ∈ sn
    · simpa [dedupByUrlAux, h] using (ih sn).cons it
    · simpa [dedupByUrlAux, h] using (ih (it.url :: sn)).cons₂ it

theorem normalizeAnchor_url (page_url : String) (a : Anchor) (it : RawItem)
    (h : normalizeAnchor page_url a = some it) :
    netlocOf it.url = netlocOf page_url ∧
    ∀ b ∈ BAD_SUBSTRINGS, inStr b (pyLower it.url) = false := by
  simp only [normalizeAnchor] at h
  split_ifs at h with h1 h2 h3 h4 h5 h6 h7
  · rcases Option.some.inj h with rfl
    refine ⟨not_ne_iff.mp h3, fun b hb => ?_⟩
    have h4' : BAD_SUBSTRINGS.any (fun x => inStr x (pyLower (pyStrip a.href))) = false := by
      simpa using h4
    simpa using List.any_eq_false.mp h4' b hb
  · rcases Option.some.inj h with rfl
    refine ⟨not_ne_iff.mp h6, fun b hb => ?_⟩
    have h7' : BAD_SUBSTRINGS.any
        (fun x => inStr x (pyLower (urljoin page_url (pyStrip a.href)))) = false := by
      simpa using h7
    simpa using List.any_eq_false.mp h7' b hb

/-- Claim C6: every item the listing adapter emits has a URL on the listing
page's own network host and free (case-insensitively) of every denylist
substring; in particular a link to a different host is rejected even when
otherwise well-formed. -/
theorem listing_same_host :
    (∀ (page_url : String) (anchors : List Anchor) (limit : ℕ) (it : RawItem),
        it ∈ parse_listing page_url anchors limit →
        netlocOf it.url = netlocOf page_url ∧
        ∀ b ∈ BAD_SUBSTRINGS, inStr b (pyLower it.url) = false) ∧
    parse_listing "https://example.com/news"
      [⟨"https://other.com/article", "A Sufficiently Long Article Title", ""⟩] 50 = [] := by
  constructor
  · intro page_url anchors limit it hmem
    have h1 : it ∈ dedupByUrlAux [] (anchors.filterMap (normalizeAnchor page_url)) :=
      (List.take_sublist limit _).subset hmem
    have h2 : it ∈ anchors.filterMap (normalizeAnchor page_url) :=
      (dedupByUrlAux_sublist _ []).subset h1
    obtain ⟨a, _, hnorm⟩ := List.mem_filterMap.mp h2
    exact normalizeAnchor_url page_url a it hnorm
  · decide

/-- The accepted same-host anchor used to witness the listing constraint. -/
def witAnchor : Anchor :=
  ⟨"https://example.com/races/gold-derby-watch", "The Awards Race Heats Up This Winter", ""⟩

theorem listing_same_host_witness :
    netlocOf "https://example.com/races/gold-derby-watch" = netlocOf "https://example.com/news" ∧
    ∀ b ∈ BAD_SUBSTRINGS,
      inStr b (pyLower "https://example.com/races/gold-derby-watch") = false :=
  listing_same_host.1 "https://example.com/news" [witAnchor] 50
    ⟨"The Awards Race Heats Up This Winter", "https://example.com/races/gold-derby-watch",
     "", ""⟩ (by decide)
